import Mathlib

/-!
Verification development for the chem-eng-solver program. The Python modules
`units.py`, `base_solver.py` and `stoichiometry.py` are shallowly embedded:
Python strings are modelled as `List Char` (wrapped in `String` at the API),
floats as `ℚ`, fallible operations as `Option`/`Except`, and each regex of the
source is implemented directly as an executable function with the exact
match semantics of the pattern it embeds.
-/

namespace ChemEngSolver

/-- Length of `List.dropWhile` never exceeds the length of the input list. -/
theorem length_dropWhile_le (p : Char → Bool) (l : List Char) :
    (l.dropWhile p).length ≤ l.length := by
  induction l with
  | nil => simp [List.dropWhile]
  | cons c t ih =>
    by_cases h : p c
    · simp only [List.dropWhile, h]
      exact Nat.le_trans ih (Nat.le_succ _)
    · simp [List.dropWhile, h]

/-- Model of `re.findall` for a pattern matching maximal runs of characters
satisfying `p`, e.g. `([a-zA-Z]+)` (`Patterns.base_units`) and
`([A-Za-z0-9]+)` (`REGEX["molecules"]`): adjacent satisfying characters merge
into one run, everything else is skipped. -/
def runsOf (p : Char → Bool) : List Char → List (List Char)
  | [] => []
  | c :: rest =>
    match p c, runsOf p rest with
    | true, r :: rs =>
      if (rest.head?.map p).getD false then (c :: r) :: rs else [c] :: r :: rs
    | true, [] => [[c]]
    | false, rs => rs

example : runsOf Char.isAlpha ("kg/m^3*m/m".toList) =
    ["kg".toList, "m".toList, "m".toList, "m".toList] := by decide
example : runsOf Char.isAlphanum ("CH4 + O2 ".toList) =
    ["CH4".toList, "O2".toList] := by decide

/-- Numeric value of a run of decimal digit characters (Python `int`/`float`
applied to a digit string). -/
def natOfDigits (l : List Char) : Nat :=
  l.foldl (fun n c => 10 * n + (c.toNat - 48)) 0

/-- Python `str.rstrip("0")`. -/
def rstripZeros (l : List Char) : List Char :=
  (l.reverse.dropWhile (fun c => c = '0')).reverse

/-- Model of `Patterns.sigfigs_repl` from `units.py`: the replacement callback
receiving the two capture groups of the `sigfigs` regex. -/
def sigfigsRepl (left right : List Char) : List Char :=
  let l := if right = [] then rstripZeros left else left
  if l = ['0'] then right else l ++ right

/-- One match of the regex `[-0]*([0-9]*)?\.?([0-9]*)?[eE]?[0-9-]*`
(`Patterns.sigfigs`) at the head of the input. Every part of the pattern is
optional and greedy with no backtracking possible, so it always matches
(possibly the empty string). Returns (consumed, group1, group2); the regex
engine resumes scanning at the end offset of the consumed part. -/
def sigfigsMatch (cs : List Char) : List Char × List Char × List Char :=
  let z := cs.takeWhile (fun c => c = '-' || c = '0')
  let r1 := cs.dropWhile (fun c => c = '-' || c = '0')
  let g1 := r1.takeWhile Char.isDigit
  let r2 := r1.dropWhile Char.isDigit
  let dotPart : List Char := match r2 with
    | '.' :: _ => ['.']
    | _ => []
  let r3 : List Char := match r2 with
    | '.' :: t => t
    | _ => r2
  let g2 := r3.takeWhile Char.isDigit
  let r4 := r3.dropWhile Char.isDigit
  let ePart : List Char := match r4 with
    | c :: _ => if c = 'e' || c = 'E' then [c] else []
    | [] => []
  let r5 : List Char := match r4 with
    | c :: t => if c = 'e' || c = 'E' then t else c :: t
    | [] => []
  let tailPart := r5.takeWhile (fun c => c.isDigit || c = '-')
  (z ++ g1 ++ dotPart ++ g2 ++ ePart ++ tailPart, g1, g2)

/-- The `sigfigs` pattern consumes nothing on the empty string. -/
theorem sigfigsMatch_nil : sigfigsMatch [] = ([], [], []) := rfl

/-- Model of `Patterns.sigfigs.sub(Patterns.sigfigs_repl, value)` from
`Units.count_sigfigs`: Python `re.sub` replaces every (possibly empty) match;
after an empty match the current character is copied through and scanning
resumes one position later, after a non-empty match scanning resumes at the
match end. -/
def sigfigsSub (cs : List Char) : List Char :=
  let m := sigfigsMatch cs
  if h : m.1 = [] then
    match cs with
    | [] => sigfigsRepl m.2.1 m.2.2
    | c :: t => sigfigsRepl m.2.1 m.2.2 ++ c :: sigfigsSub t
  else sigfigsRepl m.2.1 m.2.2 ++ sigfigsSub (cs.drop m.1.length)
termination_by cs.length
decreasing_by
  · simp
  · have hne : cs ≠ [] := by
      intro hcs
      apply h
      show (sigfigsMatch cs).1 = []
      rw [hcs]
      rfl
    have h0 : 0 < (sigfigsMatch cs).1.length := by
      apply List.length_pos.mpr
      exact h
    have h1 : 0 < cs.length := List.length_pos.mpr hne
    rw [List.length_drop]
    omega

/-- Fuel-bounded evaluator for `sigfigsSub`; each step advances at least one
character, so fuel `cs.length + 1` always suffices (`sigfigsSub_eq_fuel`). -/
def sigfigsSubF : Nat → List Char → List Char
  | 0, _ => []
  | fuel + 1, cs =>
    let m := sigfigsMatch cs
    if m.1 = [] then
      match cs with
      | [] => sigfigsRepl m.2.1 m.2.2
      | c :: t => sigfigsRepl m.2.1 m.2.2 ++ c :: sigfigsSubF fuel t
    else sigfigsRepl m.2.1 m.2.2 ++ sigfigsSubF fuel (cs.drop m.1.length)

/-- Unfolding of `sigfigsSubF` at positive fuel. -/
theorem sigfigsSubF_succ (fuel : Nat) (cs : List Char) :
    sigfigsSubF (fuel + 1) cs =
      if (sigfigsMatch cs).1 = [] then
        match cs with
        | [] => sigfigsRepl (sigfigsMatch cs).2.1 (sigfigsMatch cs).2.2
        | c :: t =>
          sigfigsRepl (sigfigsMatch cs).2.1 (sigfigsMatch cs).2.2 ++
            c :: sigfigsSubF fuel t
      else
        sigfigsRepl (sigfigsMatch cs).2.1 (sigfigsMatch cs).2.2 ++
          sigfigsSubF fuel (cs.drop (sigfigsMatch cs).1.length) := rfl

/-- The fuel-bounded evaluator agrees with `sigfigsSub` when given enough
fuel. -/
theorem sigfigsSub_eq_fuel :
    ∀ (fuel : Nat) (cs : List Char), cs.length < fuel →
      sigfigsSubF fuel cs = sigfigsSub cs := by
  intro fuel
  induction fuel with
  | zero => intro cs h; omega
  | succ n ih =>
    intro cs h
    rw [sigfigsSubF_succ, sigfigsSub.eq_def]
    by_cases hm : (sigfigsMatch cs).1 = []
    · simp only [hm, if_pos, dif_pos]
      match cs with
      | [] => rfl
      | c :: t =>
        have ht : t.length < n := by
          simp only [List.length_cons] at h
          omega
        show sigfigsRepl _ _ ++ c :: sigfigsSubF n t =
          sigfigsRepl _ _ ++ c :: sigfigsSub t
        rw [ih t ht]
    · simp only [hm, if_neg, dif_neg, not_false_iff]
      have hne : cs ≠ [] := by
        intro hcs
        apply hm
        rw [hcs]
        rfl
      have h0 : 0 < (sigfigsMatch cs).1.length := List.length_pos.mpr hm
      have h1 : 0 < cs.length := List.length_pos.mpr hne
      have hd : (cs.drop (sigfigsMatch cs).1.length).length < n := by
        rw [List.length_drop]
        omega
      rw [ih _ hd]

/-- Model of the count computed by `Units.count_sigfigs`: the length of the
substituted string. -/
def sigfigCount (value : List Char) : Nat := (sigfigsSub value).length

/-- Evaluation form of `sigfigCount` via the fuel-bounded evaluator. -/
theorem sigfigCount_eval (l : List Char) :
    sigfigCount l = (sigfigsSubF (l.length + 1) l).length := by
  rw [sigfigCount, sigfigsSub_eq_fuel (l.length + 1) l (Nat.lt_succ_self _)]

/-- Constant `MAX_SIGFIGS` from `units.py`. -/
def MAX_SIGFIGS : Nat := 6

/-- Model of `Units.count_sigfigs`'s state update: the session minimum after
one parse (`self.sigfigs = min(self.sigfigs, sigfig_count)`). -/
def countSigfigsStep (sigfigs : Nat) (value : List Char) : Nat :=
  min sigfigs (sigfigCount value)

example : sigfigCount ("-0.0001079".toList) = 7 := by rw [sigfigCount_eval]; decide
example : sigfigCount ("0.3333333333333333".toList) = 16 := by rw [sigfigCount_eval]; decide
example : sigfigCount (".00000".toList) = 5 := by rw [sigfigCount_eval]; decide
example : sigfigCount ("1001".toList) = 4 := by rw [sigfigCount_eval]; decide
example : sigfigCount ("001.00".toList) = 3 := by rw [sigfigCount_eval]; decide
example : sigfigCount ("100".toList) = 1 := by rw [sigfigCount_eval]; decide
example : sigfigCount ("123".toList) = 3 := by rw [sigfigCount_eval]; decide
example : sigfigCount ("123.0".toList) = 4 := by rw [sigfigCount_eval]; decide
example : sigfigCount ("123e15".toList) = 3 := by rw [sigfigCount_eval]; decide
example : sigfigCount ("0".toList) = 0 := by rw [sigfigCount_eval]; decide

/-- Character class `[-0-9\.eE]` of the value group in `Patterns.initial`. -/
def isValueChar (c : Char) : Bool :=
  c = '-' || c.isDigit || c = '.' || c = 'e' || c = 'E'

/-- Python `\s` whitespace class (ASCII range). -/
def pyWhitespace (c : Char) : Bool :=
  c = ' ' || c = '\t' || c = '\n' || c = '\r' || c = '\x0b' || c = '\x0c'

/-- Character class `[a-zA-Z)^/*0-9\s-]` of the units group in
`Patterns.initial`. The class contains `)` but, crucially, not `(`. -/
def isUnitsChar (c : Char) : Bool :=
  c.isAlpha || c = ')' || c = '^' || c = '/' || c = '*' || c.isDigit ||
    pyWhitespace c || c = '-'

/-- Model of `Patterns.initial` (`^([-0-9\.eE]+)\s+([a-zA-Z)^/*0-9\s-]+)`)
matched at the start of the input, including the engine's backtracking over
`\s+`: the value group is the maximal run of value characters (no shorter
run can succeed, since the class has no whitespace), at least one whitespace
character is then consumed, and the units group is the maximal nonempty run
of units characters; when no units character follows the whitespace but the
whitespace run has length at least two, `\s+` gives back one character and
the units group matches that final whitespace character (whitespace is in
the units class). -/
def initialMatch (cs : List Char) : Option (List Char × List Char) :=
  let g1 := cs.takeWhile isValueChar
  let r1 := cs.dropWhile isValueChar
  if g1 = [] then none
  else
    let w := r1.takeWhile pyWhitespace
    let r2 := r1.dropWhile pyWhitespace
    if w = [] then none
    else
      let g2 := r2.takeWhile isUnitsChar
      if g2 ≠ [] then some (g1, g2)
      else if 2 ≤ w.length then some (g1, [(w.getLast?).getD ' '])
      else none

example : initialMatch ("123 kg / m^3".toList) =
    some ("123".toList, "kg / m^3".toList) := by decide
example : initialMatch (".123 kg / m^3".toList) =
    some (".123".toList, "kg / m^3".toList) := by decide
example : initialMatch ("123E15 kg/m**3".toList) =
    some ("123E15".toList, "kg/m**3".toList) := by decide
example : initialMatch ("123kg/m**3".toList) = none := by decide
example : initialMatch ("1/4 kg/m**3".toList) = none := by decide
example : initialMatch ("123 kg/(m^3)".toList) =
    some ("123".toList, "kg/".toList) := by decide

/-- Model of Python `float()` applied to a literal over the value character
class: optional sign, integer digits, optional fractional part, optional
exponent part with at least one digit, nothing left over. Returns `none`
where Python raises `ValueError`. -/
def parsePyFloat (cs : List Char) : Option ℚ :=
  let sgnSplit : ℚ × List Char := match cs with
    | '-' :: t => (-1, t)
    | '+' :: t => (1, t)
    | _ => (1, cs)
  let sgn := sgnSplit.1
  let r0 := sgnSplit.2
  let ip := r0.takeWhile Char.isDigit
  let r1 := r0.dropWhile Char.isDigit
  let fpSplit : List Char × List Char := match r1 with
    | '.' :: t => (t.takeWhile Char.isDigit, t.dropWhile Char.isDigit)
    | _ => ([], r1)
  let fp := fpSplit.1
  let r2 := fpSplit.2
  if ip = [] ∧ fp = [] then none
  else
    let mant : ℚ :=
      sgn * ((natOfDigits ip : ℚ) + (natOfDigits fp : ℚ) / ((10 : ℚ) ^ fp.length))
    match r2 with
    | [] => some mant
    | e :: t =>
      if e = 'e' ∨ e = 'E' then
        let esgnSplit : Int × List Char := match t with
          | '-' :: t2 => (-1, t2)
          | '+' :: t2 => (1, t2)
          | _ => (1, t)
        let ed := esgnSplit.2.takeWhile Char.isDigit
        let t2 := esgnSplit.2.dropWhile Char.isDigit
        if ed = [] ∨ t2 ≠ [] then none
        else some (mant * (10 : ℚ) ^ (esgnSplit.1 * (natOfDigits ed : Int)))
      else none

example : parsePyFloat ("123".toList) = some 123 := by
  simp [parsePyFloat, natOfDigits]
example : parsePyFloat ("-123".toList) = some (-123) := by
  simp [parsePyFloat, natOfDigits]
example : parsePyFloat (".123".toList) = some (123 / 1000) := by
  simp [parsePyFloat, natOfDigits]
  norm_num
example : parsePyFloat ("1.2".toList) = some (6 / 5) := by
  simp [parsePyFloat, natOfDigits]
  norm_num
example : parsePyFloat ("123e15".toList) = some 123000000000000000 := by
  simp [parsePyFloat, natOfDigits]
  norm_num
example : parsePyFloat (".".toList) = none := by
  simp [parsePyFloat]

/-- Error cases raised by the units engine (`units.py`): the malformed-input
`Exception` of `_initial_parser`, Python's `ValueError` from `float(value)`,
the `AttributeError` from `getattr(u, unit)` on an unknown unit name, and the
cannot-build `Exception` of `_units_parser` which names the offending unit
token and the remaining unit string. -/
inductive UnitsError
  | malformedInput (input : String)
  | floatValue (value : String)
  | unknownUnit (unit : String)
  | cannotBuild (unit : String) (remaining : String)
deriving DecidableEq

/-- Decidable equality for `Except`, used to evaluate the embedded fallible
operations on concrete inputs. -/
instance {ε α : Type} [DecidableEq ε] [DecidableEq α] :
    DecidableEq (Except ε α)
  | .error e1, .error e2 =>
    if h : e1 = e2 then isTrue (by rw [h])
    else isFalse (fun hc => h (Except.error.inj hc))
  | .error _, .ok _ => isFalse (fun hc => Except.noConfusion hc)
  | .ok _, .error _ => isFalse (fun hc => Except.noConfusion hc)
  | .ok a1, .ok a2 =>
    if h : a1 = a2 then isTrue (by rw [h])
    else isFalse (fun hc => h (Except.ok.inj hc))

/-- Python `str.replace(old, new)` replacing every occurrence left-to-right;
the `Nat` argument skips characters already consumed by a replaced match. -/
def pyReplaceGo (pat repl : List Char) : Nat → List Char → List Char
  | k + 1, _ :: t => pyReplaceGo pat repl k t
  | _ + 1, [] => []
  | 0, [] => []
  | 0, c :: t =>
    if pat ≠ [] ∧ pat.isPrefixOf (c :: t) then
      repl ++ pyReplaceGo pat repl (pat.length - 1) t
    else c :: pyReplaceGo pat repl 0 t

/-- Python `str.replace(old, new)` (all occurrences). -/
def replaceAll (pat repl cs : List Char) : List Char :=
  pyReplaceGo pat repl 0 cs

/-- Python `str.replace(old, "", 1)`: removes the first occurrence of `pat`. -/
def removeFirst (pat : List Char) : List Char → List Char
  | [] => []
  | c :: t =>
    if pat.isPrefixOf (c :: t) then (c :: t).drop pat.length
    else c :: removeFirst pat t

example : replaceAll ("**".toList) ("^".toList) ("kg/m**3".toList) =
    "kg/m^3".toList := by decide
example : removeFirst ("/m^3".toList) ("/m^3*m/m".toList) =
    "*m/m".toList := by decide

/-- Model of one anchored match of the `Patterns.operators` regex
`(^[\*/]?<unit>\^?(-?\d+)?)` against the remaining units string `cur`:
returns the full matched prefix (the `base_str` that the loop removes from
the string) together with the exponent group. The optional `[\*/]?` is tried
greedily first; `\^?` consumes a caret when present; the exponent group
matches an optional sign followed by at least one digit. -/
def operatorsMatch (unit : List Char) (cur : List Char) :
    Option (List Char × List Char) :=
  let tryAt : List Char → List Char → Option (List Char × List Char) :=
    fun pre rest =>
      if unit.isPrefixOf rest then
        let after := rest.drop unit.length
        let caretSplit : List Char × List Char := match after with
          | '^' :: t => (['^'], t)
          | _ => ([], after)
        let expPart : List Char := match caretSplit.2 with
          | '-' :: t =>
            if t.takeWhile Char.isDigit ≠ [] then
              '-' :: t.takeWhile Char.isDigit
            else []
          | other => other.takeWhile Char.isDigit
        some (pre ++ unit ++ caretSplit.1 ++ expPart, expPart)
      else none
  match cur with
  | c :: t =>
    if c = '*' || c = '/' then
      match tryAt [c] t with
      | some r => some r
      | none => tryAt [] cur
    else tryAt [] cur
  | [] => tryAt [] []

/-- Loop body of `Units._units_parser`: iterates over the unit tokens found
in the original units string while the working string shrinks; for each token
the unit name is looked up (`getattr`), the anchored operators pattern is
matched against the working string, the compound unit is extended by
`base_unit ** exponent` (negated exponent for a `/` prefix), and the matched
`base_str` is removed from the working string. -/
def unitsBuildGo (known : String → Bool) :
    List (List Char) → List Char → List (String × Int) →
    Except UnitsError (List (String × Int))
  | [], _, acc => .ok acc.reverse
  | t :: ts, cur, acc =>
    let unit := String.mk t
    if known unit = false then .error (.unknownUnit unit)
    else
      match operatorsMatch t cur with
      | none => .error (.cannotBuild unit (String.mk cur))
      | some (baseStr, expPart) =>
        let isDiv := baseStr.head? = some '/'
        let e : Int := match expPart with
          | [] => 1
          | '-' :: ds => -(natOfDigits ds : Int)
          | ds => (natOfDigits ds : Int)
        let applied : Int := if isDiv then -e else e
        unitsBuildGo known ts (removeFirst baseStr cur) ((unit, applied) :: acc)

/-- Model of `Units._units_parser`. The external `unyt` unit table is
abstracted as the predicate `known`; the compound unit built by the
multiply/divide loop is represented symbolically as the ordered list of
(unit, applied exponent) factors. -/
def unitsBuild (known : String → Bool) (unitsStr : List Char) :
    Except UnitsError (List (String × Int)) :=
  let us := replaceAll ("**".toList) ("^".toList)
    (unitsStr.filter (fun c => c ≠ ' '))
  unitsBuildGo known (runsOf Char.isAlpha us) us []

/-- Unit-name table with only `kg` and `m`, enough for the concrete test
inputs drawn from the repository's own test suite. -/
def knownKgM (s : String) : Bool := s = "kg" || s = "m"

example : unitsBuild knownKgM ("kg / m^3".toList) =
    .ok [("kg", 1), ("m", -3)] := by decide
example : unitsBuild knownKgM ("kg*m^-3".toList) =
    .ok [("kg", 1), ("m", -3)] := by decide
example : unitsBuild knownKgM ("/m^3".toList) =
    .ok [("m", -3)] := by decide
example : unitsBuild knownKgM ("kg/m^3*m/m".toList) =
    .ok [("kg", 1), ("m", -3), ("m", 1), ("m", -1)] := by decide
example : unitsBuild knownKgM ("kg/m**3".toList) =
    .ok [("kg", 1), ("m", -3)] := by decide
example : unitsBuild knownKgM ("kg/(m**3)".toList) =
    .error (.cannotBuild "m" "/(m^3)") := by decide

/-- Model of `Units._initial_parser` with its `count_sigfigs` side effect;
returns the new session sigfig minimum alongside the result. The
`count_sigfigs(value)` call precedes the `float(value)` conversion, so a
`ValueError` there still leaves the tracker updated. -/
def initialParse (sigfigs : Nat) (input : String) :
    Except UnitsError (ℚ × List Char) × Nat :=
  match initialMatch input.toList with
  | none => (.error (.malformedInput input), sigfigs)
  | some (v, u) =>
    let sigfigs' := countSigfigsStep sigfigs v
    match parsePyFloat v with
    | none => (.error (.floatValue (String.mk v)), sigfigs')
    | some q => (.ok (q, u), sigfigs')

/-- Model of `Units.unit_converter` up to the point where the numeric value
and the symbolic compound unit have been built; the final conversion of the
quantity to the SI basis is performed by the external `unyt` library and can
only fail after this point, i.e. after the sigfig tracker was updated. -/
def unitConverter (known : String → Bool) (sigfigs : Nat) (input : String) :
    Except UnitsError (ℚ × List (String × Int)) × Nat :=
  match initialParse sigfigs input with
  | (.error e, s) => (.error e, s)
  | (.ok (q, u), s) =>
    match unitsBuild known u with
    | .error e => (.error e, s)
    | .ok ops => (.ok (q, ops), s)

/-! Solver grid and root bracketing (`base_solver.py`). -/

/-- Constant `MAX_BOUNDS` from `base_solver.py`. -/
def MAX_BOUNDS : Nat := 7

/-- Ascending insertion into a sorted list. -/
def insertSorted (x : ℤ) : List ℤ → List ℤ
  | [] => [x]
  | y :: ys => if x ≤ y then x :: y :: ys else y :: insertSorted x ys

/-- Ascending sort (Python `values.sort()`). -/
def sortAsc (l : List ℤ) : List ℤ := l.foldr insertSorted []

/-- Boolean check that a list of integers is ascending. -/
def isAscending : List ℤ → Bool
  | [] => true
  | [_] => true
  | a :: b :: t => decide (a ≤ b) && isAscending (b :: t)

/-- Model of the search grid built by `Solver.find_bounds`:
`[-(10 ** x) for x in range(MAX_BOUNDS)] + [0] + [10 ** x for x in
range(MAX_BOUNDS)]`, sorted ascending in place. -/
def boundsValues : List ℤ :=
  sortAsc (((List.range MAX_BOUNDS).map (fun x => -((10 : ℤ) ^ x))) ++ [0] ++
    (List.range MAX_BOUNDS).map (fun x => (10 : ℤ) ^ x))

/-- Model of `np.sign` applied to one function value. -/
def npSign (q : ℚ) : Int := if q < 0 then -1 else if 0 < q then 1 else 0

/-- Model of `Solver.find_bounds`: evaluate the sign of `func` over the
sorted grid and record the pair `(values[idx-1], values[idx])` for every
index `idx` in `range(1, signs[1:].size)` whose sign differs from its
predecessor. With the 15 grid points, `signs[1:].size` is 14, so the loop
runs `idx = 1 .. 13`. -/
def findBounds (func : ℚ → ℚ) : List (ℚ × ℚ) :=
  let values : List ℚ := boundsValues.map (fun z => (z : ℚ))
  let signs : List Int := values.map (fun v => npSign (func v))
  (List.range' 1 (signs.length - 2)).filterMap (fun idx =>
    if signs.getD idx 0 ≠ signs.getD (idx - 1) 0 then
      some (values.getD (idx - 1) 0, values.getD idx 0)
    else none)

example : boundsValues =
    [-1000000, -100000, -10000, -1000, -100, -10, -1, 0,
     1, 10, 100, 1000, 10000, 100000, 1000000] := by decide

/-! Stoichiometry (`stoichiometry.py`). -/

/-- Location of the (single possible) `re.findall` match of the greedy
groups pattern `\((.*)\)([0-9]*)` (`REGEX["groups"]`): because `.*` is
greedy, a match exists exactly when the first `(` of the string has some `)`
after it, and it then spans from the first `(` to the last `)` of the whole
string. Returns the index of that `(` and the index of that `)`. -/
def groupsMatchInfo (cs : List Char) : Option (Nat × Nat) :=
  match cs.findIdx? (fun c => c = '('), cs.reverse.findIdx? (fun c => c = ')') with
  | some i0, some jr =>
    if i0 < cs.length - 1 - jr then some (i0, cs.length - 1 - jr) else none
  | _, _ => none

/-- A groups match lies strictly inside the string. -/
theorem groupsMatchInfo_lt {cs : List Char} {i0 jlast : Nat}
    (h : groupsMatchInfo cs = some (i0, jlast)) :
    i0 < jlast ∧ jlast + 1 ≤ cs.length := by
  unfold groupsMatchInfo at h
  split at h
  · rename_i a b
    split at h
    · rename_i hlt
      rw [Option.some.injEq, Prod.mk.injEq] at h
      obtain ⟨h1, h2⟩ := h
      omega
    · simp at h
  · simp at h

/-- Model of `Stoichiometry._unpack_input_eq_groups`: for the single greedy
match of the groups pattern, the captured inner part is recursively
unpacked, repeated `count` times (`count` defaulting to 1 when the digit
group is empty), and substituted for the whole match (`re.sub`); a string
with no match is returned unchanged. -/
def unpackGroups (cs : List Char) : List Char :=
  match h : groupsMatchInfo cs with
  | none => cs
  | some (i0, jlast) =>
    let inner := (cs.drop (i0 + 1)).take (jlast - (i0 + 1))
    let digits := (cs.drop (jlast + 1)).takeWhile Char.isDigit
    let mult := if digits = [] then 1 else natOfDigits digits
    cs.take i0 ++ (List.replicate mult (unpackGroups inner)).flatten ++
      cs.drop (jlast + 1 + digits.length)
termination_by cs.length
decreasing_by
  have hb := groupsMatchInfo_lt h
  simp only [List.length_take, List.length_drop]
  omega

/-- Fuel-bounded evaluator for `unpackGroups`; the recursion descends into a
strictly shorter inner slice, so fuel `cs.length + 1` always suffices
(`unpackGroups_eq_fuel`). -/
def unpackGroupsF : Nat → List Char → List Char
  | 0, cs => cs
  | fuel + 1, cs =>
    match groupsMatchInfo cs with
    | none => cs
    | some (i0, jlast) =>
      let inner := (cs.drop (i0 + 1)).take (jlast - (i0 + 1))
      let digits := (cs.drop (jlast + 1)).takeWhile Char.isDigit
      let mult := if digits = [] then 1 else natOfDigits digits
      cs.take i0 ++ (List.replicate mult (unpackGroupsF fuel inner)).flatten ++
        cs.drop (jlast + 1 + digits.length)

/-- The fuel-bounded evaluator agrees with `unpackGroups` when given enough
fuel. -/
theorem unpackGroups_eq_fuel :
    ∀ (fuel : Nat) (cs : List Char), cs.length < fuel →
      unpackGroupsF fuel cs = unpackGroups cs := by
  intro fuel
  induction fuel with
  | zero => intro cs h; omega
  | succ n ih =>
    intro cs h
    rw [unpackGroupsF, unpackGroups.eq_def]
    match hm : groupsMatchInfo cs with
    | none => rfl
    | some (i0, jlast) =>
      have hb := groupsMatchInfo_lt hm
      have hinner : ((cs.drop (i0 + 1)).take (jlast - (i0 + 1))).length < n := by
        simp only [List.length_take, List.length_drop]
        omega
      simp only [ih _ hinner]

/-- Evaluation form of `unpackGroups` via the fuel-bounded evaluator. -/
theorem unpackGroups_eval (l : List Char) :
    unpackGroups l = unpackGroupsF (l.length + 1) l :=
  (unpackGroups_eq_fuel (l.length + 1) l (Nat.lt_succ_self _)).symm

example : unpackGroups ("CH3(CH2)2OH".toList) = "CH3CH2CH2OH".toList := by
  rw [unpackGroups_eval]
  decide
example : unpackGroups ("CH3(C(H2))4OH + O2 --> CO2 + H2O".toList) =
    "CH3CH2CH2CH2CH2OH + O2 --> CO2 + H2O".toList := by
  rw [unpackGroups_eval]
  decide

/-- Model of one scan of `REGEX["elements"]` (`([A-Z][a-z]?)([0-9]*)`) with
`re.findall`: at an uppercase letter, take it plus an optional following
lowercase letter as the element symbol and the maximal following digit run
as the count group; other characters are skipped. The `Nat` argument skips
digit characters already consumed by the previous match. -/
def elementsGo : Nat → List Char → List (String × String)
  | k + 1, _ :: t => elementsGo k t
  | _ + 1, [] => []
  | 0, [] => []
  | 0, c :: rest =>
    if c.isUpper then
      match rest with
      | c2 :: rest2 =>
        if c2.isLower then
          let ds := rest2.takeWhile Char.isDigit
          (String.mk [c, c2], String.mk ds) :: elementsGo (ds.length + 1) rest
        else
          let ds := rest.takeWhile Char.isDigit
          (String.mk [c], String.mk ds) :: elementsGo ds.length rest
      | [] => [(String.mk [c], "")]
    else elementsGo 0 rest

/-- Model of `REGEX["elements"].findall`. -/
def elementsFindall (cs : List Char) : List (String × String) :=
  elementsGo 0 cs

example : elementsFindall ("CaF2 --> Ca".toList) =
    [("Ca", ""), ("F", "2"), ("Ca", "")] := by decide

example : elementsFindall ("CH3CH2OH".toList) =
    [("C", ""), ("H", "3"), ("C", ""), ("H", "2"), ("O", ""), ("H", "")] := by
  decide

/-- Update of one key in an association list (Python `dict` assignment keeps
the key's original position). -/
def assocSet : List (String × ℚ) → String → ℚ → List (String × ℚ)
  | [], k, v => [(k, v)]
  | (k1, v1) :: t, k, v =>
    if k1 = k then (k1, v) :: t else (k1, v1) :: assocSet t k v

/-- Model of the per-molecule composition loop in
`Stoichiometry._get_element_coeff_matrix`: for each `(symbol, digits)` match
the count is the parsed digits (1 when empty); per Python truthiness,
`if composition.get(k):` accumulates only when an existing value is nonzero
and otherwise assigns. -/
def moleculeComp (mol : List Char) : List (String × ℚ) :=
  (elementsFindall mol).foldl
    (fun comp kv =>
      let count : ℚ := if kv.2 = "" then 1 else (natOfDigits kv.2.toList : ℚ)
      match comp.lookup kv.1 with
      | some v =>
        if v ≠ 0 then assocSet comp kv.1 (v + count)
        else assocSet comp kv.1 count
      | none => comp ++ [(kv.1, count)])
    []

/-- Python `composition.get(element, 0.0)`. -/
def compGet (comp : List (String × ℚ)) (k : String) : ℚ :=
  (comp.lookup k).getD 0

/-- First-occurrence key order of a Python dict comprehension over repeated
keys (reassignment keeps the original insertion position). -/
def dedupKeys : List String → List String :=
  fun l => l.foldl (fun acc k => if acc.contains k then acc else acc ++ [k]) []

/-- Python `str.split(">")`. -/
def splitOnGt : List Char → List (List Char)
  | [] => [[]]
  | c :: t =>
    if c = '>' then [] :: splitOnGt t
    else
      match splitOnGt t with
      | h :: r => (c :: h) :: r
      | [] => [[c]]

example : splitOnGt ("CaF2 --> Ca".toList) =
    ["CaF2 --".toList, " Ca".toList] := by decide

/-- Model of the construction of `self.element_balance` in
`Stoichiometry.__init__` / `_get_element_coeff_matrix`: the input must
contain `>`, groups are unpacked, the element keys are collected in first
discovery order over the whole unpacked string, the string is split on `>`
into exactly a reactant and a product side, molecules are the alphanumeric
runs of each side, and each element's row lists its count per reactant
molecule followed by its negated count per product molecule. Returns `none`
where `__init__` fails before the elemental-balance validation (missing
direction marker, or a split with more than two sides). -/
def elementBalanceRows (input : String) : Option (List (String × List ℚ)) :=
  let cs := input.toList
  if cs.contains '>' = false then none
  else
    let s := unpackGroups cs
    let keys := dedupKeys ((elementsFindall s).map Prod.fst)
    match splitOnGt s with
    | [r, p] =>
      let reactants := runsOf Char.isAlphanum r
      let products := runsOf Char.isAlphanum p
      some (keys.map (fun k =>
        (k, reactants.map (fun mol => compGet (moleculeComp mol) k) ++
            products.map (fun mol => (-1) * compGet (moleculeComp mol) k))))
    | _ => none

/-- Counter `n_reactant` of `Stoichiometry._validate_elemental_balance`:
the number of strictly positive entries in one element's row. -/
def countPos (l : List ℚ) : Nat :=
  l.foldl (fun n v => if 0 < v then n + 1 else n) 0

/-- Counter `n_product` of `Stoichiometry._validate_elemental_balance`: the
number of strictly negative entries in one element's row (the `elif`
branch). -/
def countNeg (l : List ℚ) : Nat :=
  l.foldl (fun n v => if 0 < v then n else if v < 0 then n + 1 else n) 0

/-- Model of `Stoichiometry._validate_elemental_balance`: `true` when no
exception is raised, i.e. every element row has at least one positive and at
least one negative entry. -/
def validateOk (rows : List (String × List ℚ)) : Bool :=
  rows.all (fun r => !(countPos r.2 == 0 || countNeg r.2 == 0))

/-- Minimum of a list of coefficients (`numpy` `x.min()` on the nonempty
solution vector). -/
def listMin : List ℚ → ℚ
  | [] => 0
  | [a] => a
  | a :: b :: t => min a (listMin (b :: t))

/-- Round-half-to-even to an integer (`numpy` rounding). -/
def roundHalfEven (q : ℚ) : ℤ :=
  let f := ⌊q⌋
  let r := q - (f : ℚ)
  if r < 1 / 2 then f
  else if 1 / 2 < r then f + 1
  else if f % 2 = 0 then f else f + 1

/-- Model of `x.round(nth_decimal)` with `nth_decimal = 2`
(`ROUND_TO_NTH_DECIMAL`) applied to one entry. -/
def round2 (q : ℚ) : ℚ := ((roundHalfEven (q * 100) : ℤ) : ℚ) / 100

/-- Model of the post-processing in `Stoichiometry.balance_equation` applied
to the solution vector `x` returned by the external bounded least-squares
solver: if the minimum coefficient exceeds 1 the whole vector is scaled by
`1 / min`, then every entry is rounded to 2 decimal places. -/
def balancePost (x : List ℚ) : List ℚ :=
  let m := listMin x
  let y := if 1 < m then x.map (fun v => v * (1 / m)) else x
  y.map round2

/-- Model of `Stoichiometry._format_result` applied to one side of the
equation: each molecule is rendered as `f"{coeff} {molecule}"` (Python's
`map` over two sequences truncates at the shorter), the renderings are
joined with `" + "`, and then every occurrence of the substring `"1.0 "` is
removed by `full_str.replace("1.0 ", "")`. Coefficients enter as their
Python `str(float)` renderings. -/
def formatSide (coeffs mols : List (List Char)) : List Char :=
  replaceAll ("1.0 ".toList) []
    (List.intercalate (" + ".toList)
      (List.zipWith (fun c m => c ++ ' ' :: m) coeffs mols))

/-- Model of the final formatting in `Stoichiometry.__init__`: the reactant
side is formatted against the full coefficient list (truncated by `zip`),
the product side against the coefficients after dropping the reactant ones,
and the two sides are joined with `" --> "`. -/
def formatResult (balance : List (List Char))
    (reactants products : List (List Char)) : List Char :=
  List.intercalate (" --> ".toList)
    [formatSide balance reactants,
     formatSide (balance.drop reactants.length) products]

/-! Helper lemmas. -/

/-- Session sigfig state after a sequence of `count_sigfigs` calls. -/
def sessionAfter (init : Nat) (vals : List (List Char)) : Nat :=
  vals.foldl countSigfigsStep init

/-- The sigfig tracker state returned by `initialParse`: unchanged when the
initial pattern does not match, otherwise updated with the value group's
count before anything else can fail. -/
theorem initialParse_state (s : Nat) (input : String) :
    (initialParse s input).2 =
      match initialMatch input.toList with
      | none => s
      | some vu => countSigfigsStep s vu.1 := by
  unfold initialParse
  split
  · rename_i heq
    rw [heq]
  · rename_i v u heq
    split
    · rename_i hp
      rw [heq]
    · rename_i q hp
      rw [heq]

/-- The sigfig tracker state returned by `unitConverter` is exactly the one
returned by `initialParse`; the units-building stage never touches it. -/
theorem unitConverter_state (known : String → Bool) (s : Nat) (input : String) :
    (unitConverter known s input).2 = (initialParse s input).2 := by
  unfold unitConverter
  split
  · rename_i e st heq
    rw [heq]
  · rename_i q u st heq
    split <;> rw [heq]

/-! Claim theorems. -/

/-- C6: within one `Units` session, the tracked minimum significant-figure
count equals the configured ceiling (default `MAX_SIGFIGS = 6`) before any
input is parsed, and after every `count_sigfigs` call the stored value
equals the minimum of its previous value and the count of the newly parsed
literal; in particular it is non-increasing across successive parses. -/
theorem sigfig_tracker_ceiling_and_monotone :
    MAX_SIGFIGS = 6 ∧
    sessionAfter MAX_SIGFIGS [] = 6 ∧
    (∀ (init : Nat) (vals : List (List Char)) (v : List Char),
      sessionAfter init (vals ++ [v]) =
        min (sessionAfter init vals) (sigfigCount v)) ∧
    (∀ (init : Nat) (vals : List (List Char)) (v : List Char),
      sessionAfter init (vals ++ [v]) ≤ sessionAfter init vals) := by
  refine ⟨rfl, rfl, ?_, ?_⟩
  · intro init vals v
    simp [sessionAfter, countSigfigsStep]
  · intro init vals v
    simp only [sessionAfter, List.foldl_append, List.foldl_cons, List.foldl_nil]
    exact Nat.min_le_left _ _

/-- Python `n = n if n else self.unit_registry.sigfigs` in
`Solver._round_to_sigfigs`: an explicit nonzero `n` wins; an absent or zero
`n` (both falsy) falls back to the session's tracked sigfig count. -/
def effectiveSigfigs (nopt : Option Nat) (session : Nat) : Nat :=
  match nopt with
  | none => session
  | some m => if m = 0 then session else m

/-- C10: a numeric literal consisting only of zero digits with no fractional
digits (such as in the input `"0 m"`) is counted as 0 significant figures,
the session minimum therefore drops to 0 (and stays 0 for every later
parse), and `_round_to_sigfigs` then performs its rounding with `n = 0`. -/
theorem zero_literal_drops_sigfigs_to_zero :
    sigfigCount ("0".toList) = 0 ∧
    sigfigCount ("00".toList) = 0 ∧
    (∀ s : Nat, countSigfigsStep s ("0".toList) = 0) ∧
    (∀ v : List Char, countSigfigsStep 0 v = 0) ∧
    (unitConverter knownKgM 6 "0 m").2 = 0 ∧
    effectiveSigfigs none 0 = 0 := by
  have h0 : sigfigCount ("0".toList) = 0 := by
    rw [sigfigCount_eval]; decide
  refine ⟨h0, by rw [sigfigCount_eval]; decide, ?_, ?_, ?_, rfl⟩
  · intro s
    rw [countSigfigsStep, h0]
    exact Nat.min_zero _
  · intro v
    rw [countSigfigsStep]
    exact Nat.zero_min _
  · rw [unitConverter_state, initialParse_state]
    have hm : initialMatch ("0 m".toList) = some ("0".toList, "m".toList) := by
      decide
    rw [hm]
    show countSigfigsStep 6 ("0".toList) = 0
    rw [countSigfigsStep, h0]
    exact Nat.min_zero _

/-- C9 counterexample: `unit_converter` on `"1.2 qqq"` (with `qqq` an
unknown unit) raises, yet the session's tracked sigfig minimum has moved
from 6 to 2 by the time the failure surfaces — the failed call is not
atomic with respect to session state. -/
theorem failed_conversion_mutates_sigfig_state :
    (unitConverter knownKgM 6 "1.2 qqq").1 =
      .error (.unknownUnit "qqq") ∧
    (unitConverter knownKgM 6 "1.2 qqq").2 = 2 ∧
    (2 : Nat) ≠ 6 := by
  refine ⟨by decide, ?_, by decide⟩
  rw [unitConverter_state, initialParse_state]
  have hm : initialMatch ("1.2 qqq".toList) =
      some ("1.2".toList, "qqq".toList) := by decide
  rw [hm]
  show countSigfigsStep 6 ("1.2".toList) = 2
  rw [countSigfigsStep, sigfigCount_eval]
  decide

/-- C9 amended: the sigfig tracker is left unchanged exactly by failures of
the initial pattern match; any failure past that point (float conversion,
unknown unit, unbuildable unit string, or the external conversion) occurs
after `count_sigfigs` has already lowered the session minimum to the
minimum of its previous value and the count of the value literal. -/
theorem unit_converter_state_after_call :
    ∀ (known : String → Bool) (s : Nat) (input : String),
      (initialMatch input.toList = none →
        (unitConverter known s input).2 = s) ∧
      (∀ v u, initialMatch input.toList = some (v, u) →
        (unitConverter known s input).2 = min s (sigfigCount v)) := by
  intro known s input
  constructor
  · intro h
    rw [unitConverter_state, initialParse_state, h]
  · intro v u h
    rw [unitConverter_state, initialParse_state, h]
    rfl

/-- Witness for `unit_converter_state_after_call` at the concrete failing
input `"1.2 qqq"`. -/
theorem unit_converter_state_after_call_witness :
    initialMatch ("1.2 qqq".toList) = some ("1.2".toList, "qqq".toList) ∧
    (unitConverter knownKgM 6 "1.2 qqq").2 =
      min 6 (sigfigCount ("1.2".toList)) :=
  ⟨by decide,
    (unit_converter_state_after_call knownKgM 6 "1.2 qqq").2
      ("1.2".toList) ("qqq".toList) (by decide)⟩

/-- Shift lemma for the `n_reactant` counter fold. -/
theorem countPos_shift (l : List ℚ) :
    ∀ n : Nat,
      l.foldl (fun n v => if 0 < v then n + 1 else n) n = n + countPos l := by
  induction l with
  | nil => intro n; simp [countPos]
  | cons v t ih =>
    intro n
    simp only [countPos, List.foldl_cons]
    by_cases h : 0 < v
    · simp only [if_pos h]
      rw [ih (n + 1), ih 1]
      omega
    · simp only [if_neg h]
      rw [ih n]
      rfl

/-- Shift lemma for the `n_product` counter fold. -/
theorem countNeg_shift (l : List ℚ) :
    ∀ n : Nat,
      l.foldl (fun n v => if 0 < v then n else if v < 0 then n + 1 else n) n =
        n + countNeg l := by
  induction l with
  | nil => intro n; simp [countNeg]
  | cons v t ih =>
    intro n
    simp only [countNeg, List.foldl_cons]
    by_cases h : 0 < v
    · simp only [if_pos h]
      rw [ih n]
      rfl
    · simp only [if_neg h]
      by_cases h2 : v < 0
      · simp only [if_pos h2]
        rw [ih (n + 1), ih 1]
        omega
      · simp only [if_neg h2]
        rw [ih n]
        rfl

/-- The positive-entry counter is zero exactly when the row has no positive
entry. -/
theorem countPos_eq_zero_iff (l : List ℚ) :
    countPos l = 0 ↔ ∀ v ∈ l, ¬ 0 < v := by
  induction l with
  | nil => simp [countPos]
  | cons v t ih =>
    simp only [countPos, List.foldl_cons, List.mem_cons]
    by_cases h : 0 < v
    · simp only [if_pos h]
      rw [countPos_shift t 1]
      constructor
      · intro hz; omega
      · intro hall
        exact absurd h (hall v (Or.inl rfl))
    · simp only [if_neg h]
      rw [show t.foldl (fun n v => if 0 < v then n + 1 else n) 0 = countPos t
        from rfl, ih]
      constructor
      · intro hall w hw
        rcases hw with rfl | hw
        · exact h
        · exact hall w hw
      · intro hall w hw
        exact hall w (Or.inr hw)

/-- The negative-entry counter is zero exactly when the row has no negative
entry. -/
theorem countNeg_eq_zero_iff (l : List ℚ) :
    countNeg l = 0 ↔ ∀ v ∈ l, ¬ v < 0 := by
  induction l with
  | nil => simp [countNeg]
  | cons v t ih =>
    simp only [countNeg, List.foldl_cons, List.mem_cons]
    by_cases h : 0 < v
    · simp only [if_pos h]
      rw [show t.foldl
          (fun n v => if 0 < v then n else if v < 0 then n + 1 else n) 0 =
          countNeg t from rfl, ih]
      constructor
      · intro hall w hw
        rcases hw with rfl | hw
        · intro hneg; exact absurd (lt_trans hneg h) (lt_irrefl _)
        · exact hall w hw
      · intro hall w hw
        exact hall w (Or.inr hw)
    · simp only [if_neg h]
      by_cases h2 : v < 0
      · simp only [if_pos h2]
        rw [countNeg_shift t 1]
        constructor
        · intro hz; omega
        · intro hall
          exact absurd h2 (hall v (Or.inl rfl))
      · simp only [if_neg h2]
        rw [show t.foldl
            (fun n v => if 0 < v then n else if v < 0 then n + 1 else n) 0 =
            countNeg t from rfl, ih]
        constructor
        · intro hall w hw
          rcases hw with rfl | hw
          · exact h2
          · exact hall w hw
        · intro hall w hw
          exact hall w (Or.inr hw)

/-- C7: the elemental-balance validation raises `UnbalanceableElement` if
and only if some element's row has no strictly positive entry or no strictly
negative entry; in particular the parsed balance of `"CaF2 --> Ca"` is
`Ca ↦ [1, -1], F ↦ [2, 0]` and fails the validation (fluorine has no
negative entry). -/
theorem unbalanceable_iff_row_one_sided :
    (∀ rows : List (String × List ℚ),
      validateOk rows = false ↔
        ∃ r ∈ rows, (¬ ∃ v ∈ r.2, 0 < v) ∨ (¬ ∃ v ∈ r.2, v < 0)) ∧
    elementBalanceRows "CaF2 --> Ca" =
      some [("Ca", [1, -1]), ("F", [2, 0])] ∧
    validateOk [("Ca", [1, -1]), ("F", [2, 0])] = false := by
  refine ⟨?_, ?_, by decide⟩
  · intro rows
    unfold validateOk
    have hstep : ∀ r : String × List ℚ,
        ((!(countPos r.2 == 0 || countNeg r.2 == 0)) = false) ↔
          ((¬ ∃ v ∈ r.2, 0 < v) ∨ (¬ ∃ v ∈ r.2, v < 0)) := by
      intro r
      simp only [Bool.not_eq_false', Bool.or_eq_true, beq_iff_eq,
        countPos_eq_zero_iff, countNeg_eq_zero_iff, not_exists, not_and]
    rw [show (rows.all fun r => !(countPos r.2 == 0 || countNeg r.2 == 0))
          = false ↔
        ∃ r ∈ rows, (!(countPos r.2 == 0 || countNeg r.2 == 0)) = false by
      simp [List.all_eq_true]]
    exact exists_congr fun r => and_congr_right fun _ => hstep r
  · have hu : unpackGroups ("CaF2 --> Ca".toList) = "CaF2 --> Ca".toList := by
      rw [unpackGroups_eval]; decide
    unfold elementBalanceRows
    rw [if_neg (by decide), hu]
    norm_num [moleculeComp, compGet, assocSet, natOfDigits]
    decide

/-- The minimum of a nonempty list is one of its elements. -/
theorem listMin_mem : ∀ (l : List ℚ), l ≠ [] → listMin l ∈ l := by
  intro l
  induction l with
  | nil => intro h; exact absurd rfl h
  | cons a t ih =>
    intro _
    cases t with
    | nil => simp [listMin]
    | cons b t2 =>
      rw [listMin]
      rcases min_cases a (listMin (b :: t2)) with ⟨heq, _⟩ | ⟨heq, _⟩
      · rw [heq]; exact List.mem_cons_self a _
      · rw [heq]
        exact List.mem_cons_of_mem a (ih (by simp))

/-- The list minimum is a lower bound. -/
theorem listMin_le : ∀ (l : List ℚ) (v : ℚ), v ∈ l → listMin l ≤ v := by
  intro l
  induction l with
  | nil => intro v hv; exact absurd hv (List.not_mem_nil v)
  | cons a t ih =>
    intro v hv
    cases t with
    | nil =>
      rw [List.mem_singleton] at hv
      rw [hv, listMin]
    | cons b t2 =>
      rw [listMin]
      rcases List.mem_cons.mp hv with rfl | hv2
      · exact min_le_left _ _
      · exact le_trans (min_le_right _ _) (ih v hv2)

/-- Any common lower bound is below the list minimum (nonempty list). -/
theorem le_listMin : ∀ (l : List ℚ) (c : ℚ), l ≠ [] →
    (∀ v ∈ l, c ≤ v) → c ≤ listMin l := by
  intro l
  induction l with
  | nil => intro c h; exact absurd rfl h
  | cons a t ih =>
    intro c _ hall
    cases t with
    | nil => exact hall a (List.mem_cons_self a _)
    | cons b t2 =>
      rw [listMin]
      refine le_min (hall a (List.mem_cons_self a _)) ?_
      exact ih c (by simp) fun v hv => hall v (List.mem_cons_of_mem a hv)

/-- Round-half-even never goes below the floor. -/
theorem floor_le_roundHalfEven (q : ℚ) : ⌊q⌋ ≤ roundHalfEven q := by
  unfold roundHalfEven
  by_cases h1 : q - (⌊q⌋ : ℚ) < 1 / 2
  · rw [if_pos h1]
  · rw [if_neg h1]
    by_cases h2 : 1 / 2 < q - (⌊q⌋ : ℚ)
    · rw [if_pos h2]; omega
    · rw [if_neg h2]
      by_cases h3 : ⌊q⌋ % 2 = 0
      · rw [if_pos h3]
      · rw [if_neg h3]; omega

/-- Values at least 1 round (to 2 decimals) to at least 1. -/
theorem one_le_round2 {v : ℚ} (h : 1 ≤ v) : 1 ≤ round2 v := by
  unfold round2
  rw [le_div_iff₀ (by norm_num : (0 : ℚ) < 100), one_mul]
  have h100 : (100 : ℚ) ≤ v * 100 := by nlinarith
  have hfl : (100 : ℤ) ≤ ⌊v * 100⌋ := by
    rw [Int.le_floor]
    exact_mod_cast h100
  have := floor_le_roundHalfEven (v * 100)
  exact_mod_cast le_trans hfl this

/-- Exact integers round to themselves; in particular 1 rounds to 1. -/
theorem round2_one : round2 1 = 1 := by
  have h1 : ((1 : ℚ) * 100) = ((100 : ℤ) : ℚ) := by norm_num
  unfold round2 roundHalfEven
  rw [h1, Int.floor_intCast]
  norm_num

/-- C5: given any solution vector returned by the bounded least-squares
solver (hence nonempty, with one entry per molecule, and within the box
bounds `x ≥ 1`), the post-processing of `balance_equation` preserves the
length (one coefficient per molecule), keeps every entry at least 1, and
makes the minimum entry exactly 1 after normalization and 2-decimal
rounding. -/
theorem balance_coefficients_normalized (x : List ℚ) (hne : x ≠ [])
    (hb : ∀ v ∈ x, 1 ≤ v) :
    (balancePost x).length = x.length ∧
    (∀ v ∈ balancePost x, 1 ≤ v) ∧
    listMin (balancePost x) = 1 := by
  have hm_mem : listMin x ∈ x := listMin_mem x hne
  have hm1 : 1 ≤ listMin x := hb _ hm_mem
  unfold balancePost
  dsimp only
  by_cases hgt : 1 < listMin x
  · have hmpos : (0 : ℚ) < listMin x := lt_trans one_pos hgt
    have hmne : listMin x ≠ 0 := ne_of_gt hmpos
    rw [if_pos hgt]
    have hy1 : ∀ v ∈ x.map (fun v => v * (1 / listMin x)), 1 ≤ v := by
      intro v hv
      rw [List.mem_map] at hv
      obtain ⟨w, hw, rfl⟩ := hv
      rw [mul_one_div, le_div_iff₀ hmpos, one_mul]
      exact listMin_le x w hw
    have hy_mem : (1 : ℚ) ∈ x.map (fun v => v * (1 / listMin x)) := by
      rw [List.mem_map]
      exact ⟨listMin x, hm_mem, by field_simp⟩
    refine ⟨by simp, ?_, ?_⟩
    · intro v hv
      rw [List.mem_map] at hv
      obtain ⟨w, hw, rfl⟩ := hv
      exact one_le_round2 (hy1 w hw)
    · have hall : ∀ v ∈ (x.map (fun v => v * (1 / listMin x))).map round2,
          1 ≤ v := by
        intro v hv
        rw [List.mem_map] at hv
        obtain ⟨w, hw, rfl⟩ := hv
        exact one_le_round2 (hy1 w hw)
      have h1mem : (1 : ℚ) ∈ (x.map (fun v => v * (1 / listMin x))).map
          round2 := by
        rw [List.mem_map]
        exact ⟨1, hy_mem, round2_one⟩
      have hne2 : (x.map (fun v => v * (1 / listMin x))).map round2 ≠ [] := by
        intro hc
        rw [hc] at h1mem
        exact absurd h1mem (List.not_mem_nil 1)
      exact le_antisymm (listMin_le _ _ h1mem) (le_listMin _ _ hne2 hall)
  · have hmeq : listMin x = 1 := le_antisymm (not_lt.mp hgt) hm1
    rw [if_neg hgt]
    refine ⟨by simp, ?_, ?_⟩
    · intro v hv
      rw [List.mem_map] at hv
      obtain ⟨w, hw, rfl⟩ := hv
      exact one_le_round2 (hb w hw)
    · have hall : ∀ v ∈ x.map round2, 1 ≤ v := by
        intro v hv
        rw [List.mem_map] at hv
        obtain ⟨w, hw, rfl⟩ := hv
        exact one_le_round2 (hb w hw)
      have h1mem : (1 : ℚ) ∈ x.map round2 := by
        rw [List.mem_map]
        exact ⟨listMin x, hm_mem, by rw [hmeq]; exact round2_one⟩
      have hne2 : x.map round2 ≠ [] := by
        intro hc
        rw [hc] at h1mem
        exact absurd h1mem (List.not_mem_nil 1)
      exact le_antisymm (listMin_le _ _ h1mem) (le_listMin _ _ hne2 hall)

/-- Witness for `balance_coefficients_normalized` at the concrete solver
output `[1, 2]`. -/
theorem balance_coefficients_normalized_witness :
    ([(1 : ℚ), 2] ≠ [] ∧ (∀ v ∈ [(1 : ℚ), 2], 1 ≤ v)) ∧
    ((balancePost [(1 : ℚ), 2]).length = 2 ∧
      (∀ v ∈ balancePost [(1 : ℚ), 2], 1 ≤ v) ∧
      listMin (balancePost [(1 : ℚ), 2]) = 1) := by
  have hne : [(1 : ℚ), 2] ≠ [] := by simp
  have hb : ∀ v ∈ [(1 : ℚ), 2], 1 ≤ v := by norm_num
  have h := balance_coefficients_normalized [(1 : ℚ), 2] hne hb
  exact ⟨⟨hne, hb⟩, h.1.trans (by norm_num), h.2.1, h.2.2⟩

/-- C2 counterexample: the bracketing grid has 15 points, not 13 — the set
`{-10^6, …, -10^0, 0, 10^0, …, 10^6}` contains 7 negative points, zero, and
7 positive points. -/
theorem bounds_grid_not_thirteen_points :
    boundsValues.length = 15 ∧ (15 : Nat) ≠ 13 := by decide

/-- C2 amended: the root-bracketing grid consists of exactly 15 points,
namely `{-10^6, …, -10^1, -10^0, 0, 10^0, …, 10^6}` sorted ascending. -/
theorem bounds_grid_fifteen_points_sorted :
    boundsValues =
      [-1000000, -100000, -10000, -1000, -100, -10, -1, 0,
       1, 10, 100, 1000, 10000, 100000, 1000000] ∧
    boundsValues.length = 15 ∧
    isAscending boundsValues = true := by
  refine ⟨by decide, by decide, by decide⟩

/-- C1: `find_bounds` never examines the final adjacent grid pair. The loop
`for idx in range(1, signs[1:].size)` runs `idx = 1 .. 13` over the 15-point
grid, so a sign change between `values[13] = 10^5` and `values[14] = 10^6`
is not recorded: for `func(x) = x - 500000` the function changes sign only
on that last pair, yet `find_bounds` returns no brackets, contradicting its
own docstring ("Every pair ... where func had opposite signs"). -/
theorem find_bounds_misses_final_pair :
    findBounds (fun x => x - 500000) = [] ∧
    npSign (((100000 : ℤ) : ℚ) - 500000) ≠
      npSign (((1000000 : ℤ) : ℚ) - 500000) := by
  constructor
  · have hv : boundsValues =
        [-1000000, -100000, -10000, -1000, -100, -10, -1, 0,
         1, 10, 100, 1000, 10000, 100000, 1000000] := by decide
    unfold findBounds
    dsimp only
    rw [hv]
    norm_num [npSign, List.range', List.filterMap]
  · norm_num [npSign]

example : findBounds (fun x => x - 500) = [(100, 1000)] := by
  have hv : boundsValues =
      [-1000000, -100000, -10000, -1000, -100, -10, -1, 0,
       1, 10, 100, 1000, 10000, 100000, 1000000] := by decide
  unfold findBounds
  dsimp only
  rw [hv]
  norm_num [npSign, List.range', List.filterMap]

/-- C3: the formatter removes every occurrence of the substring `"1.0 "`,
not just coefficients exactly equal to 1.0. For balanced coefficients
`[1.0, 17.0, 11.0, 12.0]` (undecane combustion,
`C11H24 + O2 --> CO2 + H2O`), the rendering of the coefficient 11.0 is
mangled to `"1CO2"` instead of the claimed unaltered `"11.0 CO2"`. -/
theorem format_mangles_coefficient_eleven :
    formatResult
      ["1.0".toList, "17.0".toList, "11.0".toList, "12.0".toList]
      ["C11H24".toList, "O2".toList] ["CO2".toList, "H2O".toList] =
      "C11H24 + 17.0 O2 --> 1CO2 + 12.0 H2O".toList ∧
    formatResult
      ["1.0".toList, "17.0".toList, "11.0".toList, "12.0".toList]
      ["C11H24".toList, "O2".toList] ["CO2".toList, "H2O".toList] ≠
      "C11H24 + 17.0 O2 --> 11.0 CO2 + 12.0 H2O".toList := by
  exact ⟨by decide, by decide⟩

example : formatResult
    ["1.0".toList, "2.0".toList, "1.0".toList, "2.0".toList]
    ["CH4".toList, "O2".toList] ["CO2".toList, "H2O".toList] =
    "CH4 + 2.0 O2 --> CO2 + 2.0 H2O".toList := by decide

example : formatResult
    ["2.0".toList, "1.0".toList, "2.0".toList]
    ["Na".toList, "Cl2".toList] ["NaCl".toList] =
    "2.0 Na + Cl2 --> 2.0 NaCl".toList := by decide

/-- C4: the greedy groups regex spans from the first `(` to the last `)` of
the whole string, so two sibling groups are treated as one giant group and
the result is mangled and still contains parentheses — expansion does not
repeat until no parentheses remain. Purely nested groups (the docstring's
own example) do expand correctly. -/
theorem sibling_groups_left_unexpanded :
    unpackGroups ("(A)2(B)3".toList) = "A)2(BA)2(BA)2(B".toList ∧
    '(' ∈ unpackGroups ("(A)2(B)3".toList) ∧
    unpackGroups ("CH3(CH2)2OH".toList) = "CH3CH2CH2OH".toList := by
  refine ⟨?_, ?_, ?_⟩ <;> rw [unpackGroups_eval] <;> decide

/-- C8 counterexample: the initial pattern's units character class excludes
`(`, so for the input `"123 kg/(m^3)"` the captured unit expression is
truncated to `"kg/"` and the conversion succeeds (value 123 with unit `kg`)
instead of failing with the cannot-build error. -/
theorem paren_input_converts_successfully :
    (unitConverter knownKgM 6 "123 kg/(m^3)").1 = .ok (123, [("kg", 1)]) ∧
    '(' ∈ "123 kg/(m^3)".toList := by
  constructor
  · have h1 : initialMatch ("123 kg/(m^3)".toList) =
        some ("123".toList, "kg/".toList) := by decide
    have h2 : parsePyFloat ("123".toList) = some 123 := by
      simp [parsePyFloat, natOfDigits]
    have h3 : unitsBuild knownKgM ("kg/".toList) = .ok [("kg", 1)] := by
      decide
    simp only [unitConverter, initialParse, h1, h2, h3]
  · decide

/-- C8 amended: a `(` can never reach `_units_parser` through
`unit_converter`, because the units group captured by the initial pattern
never contains `(`; a units string handed directly to `_units_parser` in
which a `(` blocks a token's anchored match fails with the cannot-build
error naming the offending unit token and the remaining unparsed string. -/
theorem paren_never_reaches_units_build :
    (∀ (s v u : List Char), initialMatch s = some (v, u) → '(' ∉ u) ∧
    unitsBuild knownKgM ("kg/(m**3)".toList) =
      .error (.cannotBuild "m" "/(m^3)") := by
  constructor
  · intro s v u h hmem
    unfold initialMatch at h
    dsimp only at h
    split at h
    · exact absurd h (by simp)
    · split at h
      · exact absurd h (by simp)
      · split at h
        · rw [Option.some.injEq, Prod.mk.injEq] at h
          obtain ⟨-, hu⟩ := h
          rw [← hu] at hmem
          have := List.mem_takeWhile_imp hmem
          exact absurd this (by decide)
        · split at h
          · rw [Option.some.injEq, Prod.mk.injEq] at h
            obtain ⟨-, hu⟩ := h
            rw [← hu, List.mem_singleton] at hmem
            rcases hg : ((s.dropWhile isValueChar).takeWhile
                pyWhitespace).getLast? with _ | x
            · rw [hg] at hmem
              exact absurd hmem (by decide)
            · rw [hg] at hmem
              have hx : x ∈ (s.dropWhile isValueChar).takeWhile
                  pyWhitespace :=
                List.mem_of_mem_getLast? (by simp [hg])
              have hw := List.mem_takeWhile_imp hx
              simp only [Option.getD_some] at hmem
              rw [← hmem] at hw
              exact absurd hw (by decide)
          · exact absurd h (by simp)
  · decide

/-- Witness for `paren_never_reaches_units_build` at the concrete input
`"123 kg/(m^3)"`, whose captured units group is the truncated `"kg/"`. -/
theorem paren_never_reaches_units_build_witness :
    initialMatch ("123 kg/(m^3)".toList) =
      some ("123".toList, "kg/".toList) ∧
    '(' ∉ "kg/".toList :=
  ⟨by decide,
    paren_never_reaches_units_build.1 ("123 kg/(m^3)".toList)
      ("123".toList) ("kg/".toList) (by decide)⟩

end ChemEngSolver
